import Mathlib

/-!
Shallow embedding of the `@woonysoft/fire` Firebase helper library
(`src/unnamed/part_000`, exporting `Fire`, `FireBatch`, `FireQuery`,
`FireUtil`, and the module-private helpers `getColRef` / `getDocRef`).

Modelling conventions:
* Firestore field values are the inductive `Value`; the firestore
  `serverTimestamp()` sentinel is `Value.serverTs`, `Timestamp` values are
  `Value.ts`, JS `Date` values are `Value.date`.
* A `DocumentData` object is an association list whose JS-object semantics
  are given by first-match lookup `getField`; the spread
  `{...data, k: v}` is `setField data k v`, which removes any old binding
  of `k` and appends the new one.
* `CollectionReference` / `DocumentReference` carry the segment path that
  the firestore SDK builds from a slash-separated path string.
* The random document id produced by the SDK overload `doc(collectionRef)`
  is threaded as an explicit `freshId` argument.
* Asynchronous calls into the firebase client library are modelled as an
  emitted trace of `BackendCall` values; `FireBatch` write batches are
  lists of `WriteOp` values accumulated per underlying `WriteBatch`.
-/

/-- A firestore field value. -/
inductive Value where
  | str (s : String)
  | num (n : Int)
  | bool (b : Bool)
  | ts (millis : Int)
  | date (millis : Int)
  | serverTs
  | null
deriving DecidableEq, Repr

/-- Whether a value is a JS string. -/
def Value.isStr : Value → Bool
  | .str _ => true
  | _ => false

/-- A JS object holding document data: an association list read by
first-match lookup. -/
abbrev DocumentData := List (String × Value)

/-- Reading property `k` of a JS object. -/
def getField (d : DocumentData) (k : String) : Option Value :=
  (List.find? (fun kv => kv.1 == k) d).map (fun kv => kv.2)

/-- The JS object `{...d, k: v}`: any old binding of `k` is overridden. -/
def setField (d : DocumentData) (k : String) (v : Value) : DocumentData :=
  List.filter (fun kv => !(kv.1 == k)) d ++ [(k, v)]

/-- A firestore `CollectionReference`, identified by its segment path. -/
structure CollectionReference where
  path : List String
deriving DecidableEq, Repr

/-- A firestore `DocumentReference`, identified by its segment path. -/
structure DocumentReference where
  path : List String
deriving DecidableEq, Repr

/-- `DocumentReference.id`: the last path segment. -/
def DocumentReference.id (d : DocumentReference) : String :=
  d.path.getLastD ""

/-- The firestore SDK call `collection(getFirestore(), path)`: the path
string is split on slashes. -/
def collection (path : String) : CollectionReference :=
  ⟨path.splitOn "/"⟩

/-- The firestore SDK call `doc(getFirestore(), path)`. -/
def docFromPath (path : String) : DocumentReference :=
  ⟨path.splitOn "/"⟩

/-- The firestore SDK call `doc(collectionRef)`: a document of the
collection with a freshly generated id, threaded explicitly. -/
def docFromCol (c : CollectionReference) (freshId : String) : DocumentReference :=
  ⟨c.path ++ [freshId]⟩

/-- The TS union `ColRefOrPath = CollectionReference | string | string[]`. -/
inductive ColRefOrPath where
  | ref (c : CollectionReference)
  | str (s : String)
  | arr (p : List String)
deriving DecidableEq, Repr

/-- The TS union `DocRefOrPath = DocumentReference | string | string[]`. -/
inductive DocRefOrPath where
  | ref (d : DocumentReference)
  | str (s : String)
  | arr (p : List String)
deriving DecidableEq, Repr

/-- The widened parameter type `DocRefOrPath | CollectionReference` taken
by `Fire.docRef` and the module helper `getDocRef`. -/
inductive DocRefOrPathOrCol where
  | ref (d : DocumentReference)
  | str (s : String)
  | arr (p : List String)
  | col (c : CollectionReference)
deriving DecidableEq, Repr

/-- Inclusion of `DocRefOrPath` into `DocRefOrPath | CollectionReference`. -/
def DocRefOrPath.toWide : DocRefOrPath → DocRefOrPathOrCol
  | .ref d => .ref d
  | .str s => .str s
  | .arr p => .arr p

/-- `string[].join('/')`. -/
def joinPath (p : List String) : String :=
  String.intercalate "/" p

/-- Module helper `getColRef` (source lines 380-388): strings go through
`collection`, arrays are joined with a slash first, references pass
through unchanged. -/
def getColRef : ColRefOrPath → CollectionReference
  | .str s => collection s
  | .arr p => collection (joinPath p)
  | .ref c => c

/-- Module helper `getDocRef` (source lines 390-401): strings go through
`doc`, arrays are joined with a slash, a `CollectionReference` yields a
document with a fresh id, references pass through unchanged. -/
def getDocRef (x : DocRefOrPathOrCol) (freshId : String) : DocumentReference :=
  match x with
  | .str s => docFromPath s
  | .arr p => docFromPath (joinPath p)
  | .col c => docFromCol c freshId
  | .ref d => d

/-- `getDocRef` restricted to the narrow union `DocRefOrPath`, as used by
the CRUD and batch methods; the collection branch is unreachable there, so
the fresh id is irrelevant and instantiated with the empty string. -/
def getDocRefN (x : DocRefOrPath) : DocumentReference :=
  getDocRef x.toWide ""

/-- One asynchronous call into the firebase/firestore client library, as
emitted by a `Fire` document CRUD method. `bSet` with `merge := true` is
`setDoc(ref, data, {merge: true})`. -/
inductive BackendCall where
  | bGet (ref : DocumentReference)
  | bSet (ref : DocumentReference) (data : DocumentData) (merge : Bool)
  | bUpdate (ref : DocumentReference) (data : DocumentData)
  | bDelete (ref : DocumentReference)
deriving DecidableEq, Repr

/-- The payload `{...data, id: docId, createdAt: serverTimestamp()}` built
by `Fire.addDoc`, `Fire.setDoc`, `FireBatch.add` and `FireBatch.set`. -/
def payloadCreate (data : DocumentData) (docId : String) : DocumentData :=
  setField (setField data "id" (.str docId)) "createdAt" .serverTs

/-- The payload `{...data, id: docId, updatedAt: serverTimestamp()}` built
by `Fire.mergeDoc`, `Fire.updateDoc`, `FireBatch.merge` and
`FireBatch.update`. -/
def payloadUpdate (data : DocumentData) (docId : String) : DocumentData :=
  setField (setField data "id" (.str docId)) "updatedAt" .serverTs

/-- A signed-in firebase auth user. -/
structure User where
  uid : String
  email : String
deriving DecidableEq, Repr

/-- The state of the process-global `getAuth()` singleton. -/
structure AuthState where
  currentUser : Option User
deriving DecidableEq, Repr

/-- The process-global `getFirestore()` singleton, opaque to this code. -/
structure Firestore where
  appName : String
deriving DecidableEq, Repr

/-- The global firebase state shared by every `Fire` instance: the
`getAuth()` and `getFirestore()` singletons. -/
structure GlobalState where
  auth : AuthState
  firestore : Firestore
deriving DecidableEq, Repr

/-- The `Fire` class. Its TS declaration has no instance fields
(every getter calls `getAuth()`/`getFirestore()` and every method only
uses its arguments), so the structure is empty. -/
structure Fire where
deriving DecidableEq, Repr

/-- Getter `Fire.auth`: returns the global `getAuth()` state. -/
def Fire.auth (_ : Fire) (g : GlobalState) : AuthState :=
  g.auth

/-- Getter `Fire.user`: `this.auth.currentUser`. -/
def Fire.user (f : Fire) (g : GlobalState) : Option User :=
  (f.auth g).currentUser

/-- Getter `Fire.uid`: `this.user?.uid ?? ''`. -/
def Fire.uid (f : Fire) (g : GlobalState) : String :=
  (Option.map User.uid (f.user g)).getD ""

/-- Getter `Fire.db`: returns the global `getFirestore()` singleton. -/
def Fire.db (_ : Fire) (g : GlobalState) : Firestore :=
  g.firestore

/-- `Fire.serverTs()`: the `serverTimestamp()` sentinel. -/
def Fire.serverTs (_ : Fire) : Value :=
  .serverTs

/-- `Fire.signIn(email, password)`: `signInWithEmailAndPassword` updates
the global current user (its successful outcome is threaded as
`signedIn`), then `this.user` is returned. -/
def Fire.signIn (f : Fire) (g : GlobalState) (_email _password : String)
    (signedIn : User) : GlobalState × Option User :=
  let g1 : GlobalState := { g with auth := ⟨some signedIn⟩ }
  (g1, f.user g1)

/-- `Fire.signOut()`: `this.auth.signOut()` clears the current user. -/
def Fire.signOut (_ : Fire) (g : GlobalState) : GlobalState :=
  { g with auth := ⟨none⟩ }

/-- `Fire.colRef(colRefOrPath)`: delegates to `getColRef`. -/
def Fire.colRef (_ : Fire) (x : ColRefOrPath) : CollectionReference :=
  getColRef x

/-- `Fire.docRef(docRefOrPath)`: delegates to `getDocRef`. -/
def Fire.docRef (_ : Fire) (x : DocRefOrPathOrCol) (freshId : String) :
    DocumentReference :=
  getDocRef x freshId

/-- `Fire.getDoc(docRefOrPath, converter)`: one `getDoc` backend call on
the normalized reference; `snapshot.data() ?? null` applies the converter
when the document exists. The backend response is `snap`. -/
def Fire.getDoc (_ : Fire) (x : DocRefOrPath)
    (converter : DocumentData → DocumentData) (snap : Option DocumentData) :
    List BackendCall × Option DocumentData :=
  let docRef := getDocRefN x
  ([.bGet docRef], Option.map converter snap)

/-- `Fire.addDoc(colRefOrPath, data)`: builds a fresh document reference
in the collection, then one `setDoc` call with the create payload. -/
def Fire.addDoc (_ : Fire) (x : ColRefOrPath) (data : DocumentData)
    (freshId : String) : List BackendCall × DocumentReference :=
  let docRef := docFromCol (getColRef x) freshId
  ([.bSet docRef (payloadCreate data docRef.id) false], docRef)

/-- `Fire.setDoc(docRefOrPath, data)`: one `setDoc` call with the create
payload on the normalized reference. -/
def Fire.setDoc (_ : Fire) (x : DocRefOrPath) (data : DocumentData) :
    List BackendCall × DocumentReference :=
  let docRef := getDocRefN x
  ([.bSet docRef (payloadCreate data docRef.id) false], docRef)

/-- `Fire.mergeDoc(docRefOrPath, data)`: one merging `setDoc` call with
the update payload on the normalized reference. -/
def Fire.mergeDoc (_ : Fire) (x : DocRefOrPath) (data : DocumentData) :
    List BackendCall × DocumentReference :=
  let docRef := getDocRefN x
  ([.bSet docRef (payloadUpdate data docRef.id) true], docRef)

/-- `Fire.updateDoc(docRefOrPath, data)`: one `updateDoc` call with the
update payload on the normalized reference. -/
def Fire.updateDoc (_ : Fire) (x : DocRefOrPath) (data : DocumentData) :
    List BackendCall × DocumentReference :=
  let docRef := getDocRefN x
  ([.bUpdate docRef (payloadUpdate data docRef.id)], docRef)

/-- `Fire.deleteDoc(docRefOrPath)`: one `deleteDoc` call on the
normalized reference. -/
def Fire.deleteDoc (_ : Fire) (x : DocRefOrPath) : List BackendCall :=
  let docRef := getDocRefN x
  [.bDelete docRef]

/-- One write recorded in an underlying firestore `WriteBatch`. -/
inductive WriteOp where
  | setW (ref : DocumentReference) (data : DocumentData) (merge : Bool)
  | updateW (ref : DocumentReference) (data : DocumentData)
  | deleteW (ref : DocumentReference)
deriving DecidableEq, Repr

/-- The mutable state of a `FireBatch` accumulator: the per-batch limit
`countPerBatch`, the two counters, and the queue of underlying
`WriteBatch` objects, each carrying its recorded writes in order. The
last entry of `batches` is the current batch `curBatch`. -/
structure BatchState where
  countPerBatch : Nat
  totalCount : Nat
  curCount : Nat
  batches : List (List WriteOp)
deriving DecidableEq, Repr

/-- `DEF_COUNT_PER_BATCH` (source line 239). -/
def DEF_COUNT_PER_BATCH : Nat := 495

/-- Getter `FireBatch.batchCount`: `this.batches.length`. -/
def BatchState.batchCount (s : BatchState) : Nat :=
  s.batches.length

/-- All writes recorded so far, across the underlying batches, in
accumulation order. -/
def BatchState.allWrites (s : BatchState) : List WriteOp :=
  s.batches.flatten

/-- The `FireBatch` constructor: zero counters and one fresh empty
`writeBatch(this.db)`. -/
def FireBatch.mkState (countPerBatch : Nat) : BatchState :=
  ⟨countPerBatch, 0, 0, [[]]⟩

/-- Recording a write on `this.curBatch`, the last underlying batch. -/
def BatchState.pushCur (s : BatchState) (w : WriteOp) : BatchState :=
  { s with batches := s.batches.dropLast ++ [s.batches.getLastD [] ++ [w]] }

/-- Private method `FireBatch.updateCount` (source lines 294-301): bump
both counters; once the current batch holds `countPerBatch` writes, push
a fresh `writeBatch(this.db)` and reset the per-batch counter. -/
def BatchState.updateCount (s : BatchState) : BatchState :=
  if s.countPerBatch ≤ s.curCount + 1 then
    { s with totalCount := s.totalCount + 1, curCount := 0,
             batches := s.batches ++ [[]] }
  else
    { s with totalCount := s.totalCount + 1, curCount := s.curCount + 1 }

/-- The common tail of every `FireBatch` write method: record the write on
the current batch, then `this.updateCount()`. -/
def BatchState.stepWrite (s : BatchState) (w : WriteOp) : BatchState :=
  (s.pushCur w).updateCount

/-- `FireBatch.add(colRefOrPath, data)`: fresh document of the collection,
`set` with the create payload on the current batch, returns the new id. -/
def FireBatch.add (s : BatchState) (x : ColRefOrPath) (data : DocumentData)
    (freshId : String) : String × BatchState :=
  let docRef := docFromCol (getColRef x) freshId
  let docId := docRef.id
  (docId, s.stepWrite (.setW docRef (payloadCreate data docId) false))

/-- `FireBatch.set(docRefOrPath, data)`: `set` with the create payload on
the current batch. -/
def FireBatch.set (s : BatchState) (x : DocRefOrPath) (data : DocumentData) :
    BatchState :=
  let docRef := getDocRefN x
  s.stepWrite (.setW docRef (payloadCreate data docRef.id) false)

/-- `FireBatch.merge(docRefOrPath, data)`: merging `set` with the update
payload on the current batch. -/
def FireBatch.merge (s : BatchState) (x : DocRefOrPath) (data : DocumentData) :
    BatchState :=
  let docRef := getDocRefN x
  s.stepWrite (.setW docRef (payloadUpdate data docRef.id) true)

/-- `FireBatch.update(docRefOrPath, data)`: `update` with the update
payload on the current batch. -/
def FireBatch.update (s : BatchState) (x : DocRefOrPath) (data : DocumentData) :
    BatchState :=
  let docRef := getDocRefN x
  s.stepWrite (.updateW docRef (payloadUpdate data docRef.id))

/-- `FireBatch.delete(docRefOrPath)`: `delete` on the current batch. -/
def FireBatch.deleteOp (s : BatchState) (x : DocRefOrPath) : BatchState :=
  let docRef := getDocRefN x
  s.stepWrite (.deleteW docRef)

/-- One user-level call on a `FireBatch`, with its arguments. -/
inductive BatchOp where
  | add (x : ColRefOrPath) (data : DocumentData) (freshId : String)
  | set (x : DocRefOrPath) (data : DocumentData)
  | merge (x : DocRefOrPath) (data : DocumentData)
  | update (x : DocRefOrPath) (data : DocumentData)
  | delete (x : DocRefOrPath)
deriving DecidableEq, Repr

/-- Dispatch of a user-level call to the corresponding method. -/
def BatchState.apply (s : BatchState) : BatchOp → BatchState
  | .add x data freshId => (FireBatch.add s x data freshId).2
  | .set x data => FireBatch.set s x data
  | .merge x data => FireBatch.merge s x data
  | .update x data => FireBatch.update s x data
  | .delete x => FireBatch.deleteOp s x

/-- A sequence of user-level calls applied in order. -/
def BatchState.applyOps (s : BatchState) (ops : List BatchOp) : BatchState :=
  ops.foldl BatchState.apply s

/-- The `for (const batch of this.batches) await batch.commit()` loop of
`FireBatch.commit`. `ok i` tells whether the backend accepts the commit
of the i-th underlying batch. On success it yields every write applied,
in order; on the first refused batch the exception propagates, carrying
the refused index and the writes of the batches already committed. -/
def commitLoop (ok : Nat → Bool) : Nat → List (List WriteOp) →
    Except (Nat × List WriteOp) (List WriteOp)
  | _, [] => .ok []
  | i, b :: rest =>
    if ok i then
      match commitLoop ok (i + 1) rest with
      | .ok ws => .ok (b ++ ws)
      | .error (j, ws) => .error (j, b ++ ws)
    else
      .error (i, [])

/-- The observable outcome of `FireBatch.commit`: the returned value or
propagated error index, the writes the backend actually applied, and the
accumulator state afterwards. -/
structure CommitOutcome where
  result : Except Nat Nat
  committed : List WriteOp
  state : BatchState
deriving Repr

/-- `FireBatch.commit` (source lines 257-266): commit every underlying
batch in order; only when all succeed are the counters zeroed, the batch
list reset to one fresh batch, and the previous total returned. A thrown
commit propagates before any reset runs. -/
def FireBatch.commit (ok : Nat → Bool) (s : BatchState) : CommitOutcome :=
  match commitLoop ok 0 s.batches with
  | .error (i, ws) => ⟨.error i, ws, s⟩
  | .ok ws => ⟨.ok s.totalCount, ws, FireBatch.mkState s.countPerBatch⟩

/-- `Timestamp` fields become `Date` fields (the conversion loop of
`FireUtil.getFireData`); other values pass through. -/
def tsToDate : Value → Value
  | .ts millis => .date millis
  | v => v

/-- The conversion loop of `FireUtil.getFireData`: every top-level
`Timestamp` value becomes a `Date` value. -/
def FireUtil.convertedData (d : DocumentData) : DocumentData :=
  d.map (fun kv => (kv.1, tsToDate kv.2))

/-- A destructured-and-re-emitted key: in JS the re-emitted key holds
`undefined` when absent, which is observationally absent, so it is
emitted only when present. -/
def FireUtil.optEntry (d : DocumentData) (k : String) : DocumentData :=
  match getField d k with
  | some v => [(k, v)]
  | none => []

/-- Private static `FireUtil.getFireData` (source lines 368-377): convert
every top-level `Timestamp` to a `Date`, then rebuild
`{id = '', createdAt, updatedAt, ...others}` with the id defaulting to
the empty string. -/
def FireUtil.getFireData (d : DocumentData) : DocumentData :=
  ("id", (getField (FireUtil.convertedData d) "id").getD (.str "")) ::
    (FireUtil.optEntry (FireUtil.convertedData d) "createdAt" ++
      FireUtil.optEntry (FireUtil.convertedData d) "updatedAt" ++
      (FireUtil.convertedData d).filter
        (fun kv => !(kv.1 == "id" || kv.1 == "createdAt" || kv.1 == "updatedAt")))

/-- Static `FireUtil.createDataConverter(fromFirestore)`: the converter
whose `fromFirestore` pipes the snapshot data through
`FireUtil.getFireData` before the user mapping function. -/
def FireUtil.createDataConverter (fromFirestore : DocumentData → DocumentData) :
    DocumentData → DocumentData :=
  fun snapshotData => fromFirestore (FireUtil.getFireData snapshotData)

/-- The new writes a transition appends past those already recorded. -/
def BatchState.newWrites (s s2 : BatchState) : List WriteOp :=
  s2.allWrites.drop s.allWrites.length

/-- The bookkeeping invariant of a `FireBatch` with per-batch limit `c`:
the per-batch counter tracks the current batch, every retired batch holds
exactly `c` writes, and the counters follow euclidean division of the
total by `c`. -/
def BatchInv (c : Nat) (s : BatchState) : Prop :=
  s.countPerBatch = c ∧
  s.curCount < c ∧
  s.curCount = s.totalCount % c ∧
  s.batches.length = s.totalCount / c + 1 ∧
  (∀ b ∈ s.batches.dropLast, b.length = c) ∧
  (s.batches.getLastD []).length = s.curCount

/-- Whether the payload of a recorded write carries an `id` field equal
to the id of the reference written to (trivial for deletes, which carry
no payload). -/
def WriteOp.idMirrors : WriteOp → Prop
  | .setW r d _ => getField d "id" = some (.str r.id)
  | .updateW r d => getField d "id" = some (.str r.id)
  | .deleteW _ => True

/-- Whether the payload of a backend call carries an `id` field equal to
the id of the reference written to (trivial for reads and deletes). -/
def BackendCall.idMirrors : BackendCall → Prop
  | .bSet r d _ => getField d "id" = some (.str r.id)
  | .bUpdate r d => getField d "id" = some (.str r.id)
  | _ => True

/-- The document payload a recorded write carries, when it carries one. -/
def WriteOp.payloadOf : WriteOp → Option DocumentData
  | .setW _ d _ => some d
  | .updateW _ d => some d
  | .deleteW _ => none

/-- The document payload a backend call carries, when it carries one. -/
def BackendCall.payloadOf : BackendCall → Option DocumentData
  | .bSet _ d _ => some d
  | .bUpdate _ d => some d
  | _ => none

/-- A written payload attaches the server creation timestamp under
`createdAt` and leaves `updatedAt` exactly as the caller supplied it
(so the update timestamp is not attached by the operation). -/
def stampsCreate (pay data : DocumentData) : Prop :=
  getField pay "createdAt" = some .serverTs ∧
  getField pay "updatedAt" = getField data "updatedAt"

/-- A written payload attaches the server update timestamp under
`updatedAt` and leaves `createdAt` exactly as the caller supplied it
(so the creation timestamp is not attached by the operation). -/
def stampsUpdate (pay data : DocumentData) : Prop :=
  getField pay "updatedAt" = some .serverTs ∧
  getField pay "createdAt" = getField data "createdAt"

/-- Spec reading of `Fire.getDoc`: the single backend `getDoc` call on
the normalized reference. -/
def SpecSingleCall.getDocTrace (x : DocRefOrPath) : List BackendCall :=
  [.bGet (getDocRefN x)]

/-- Spec reading of `Fire.addDoc`: the single backend `setDoc` call on
the fresh document of the normalized collection, with the enriched
create payload. -/
def SpecSingleCall.addDocTrace (x : ColRefOrPath) (data : DocumentData)
    (freshId : String) : List BackendCall :=
  [.bSet (docFromCol (getColRef x) freshId)
    (payloadCreate data (docFromCol (getColRef x) freshId).id) false]

/-- Spec reading of `Fire.setDoc`: the single backend `setDoc` call on
the normalized reference with the enriched create payload. -/
def SpecSingleCall.setDocTrace (x : DocRefOrPath) (data : DocumentData) :
    List BackendCall :=
  [.bSet (getDocRefN x) (payloadCreate data (getDocRefN x).id) false]

/-- Spec reading of `Fire.mergeDoc`: the single merging backend `setDoc`
call on the normalized reference with the enriched update payload. -/
def SpecSingleCall.mergeDocTrace (x : DocRefOrPath) (data : DocumentData) :
    List BackendCall :=
  [.bSet (getDocRefN x) (payloadUpdate data (getDocRefN x).id) true]

/-- Spec reading of `Fire.updateDoc`: the single backend `updateDoc`
call on the normalized reference with the enriched update payload. -/
def SpecSingleCall.updateDocTrace (x : DocRefOrPath) (data : DocumentData) :
    List BackendCall :=
  [.bUpdate (getDocRefN x) (payloadUpdate data (getDocRefN x).id)]

/-- Spec reading of `Fire.deleteDoc`: the single backend `deleteDoc`
call on the normalized reference. -/
def SpecSingleCall.deleteDocTrace (x : DocRefOrPath) : List BackendCall :=
  [.bDelete (getDocRefN x)]

/-! ### Helper lemmas on field lookup -/

theorem find?_filter_keys (d : DocumentData) (k : String) (f : String → Bool)
    (hf : f k = true) :
    List.find? (fun kv => kv.1 == k) (List.filter (fun kv => f kv.1) d)
      = List.find? (fun kv => kv.1 == k) d := by
  induction d with
  | nil => rfl
  | cons a d ih =>
    rw [List.filter_cons]
    by_cases ha : a.1 == k
    · have hak : a.1 = k := by simpa using ha
      have : f a.1 = true := by rw [hak]; exact hf
      simp only [this, if_pos]
      rw [List.find?_cons_of_pos _ (by simpa using ha),
        List.find?_cons_of_pos _ (by simpa using ha)]
    · by_cases hfa : f a.1 = true
      · simp only [hfa, if_pos]
        rw [List.find?_cons_of_neg _ (by simpa using ha),
          List.find?_cons_of_neg _ (by simpa using ha), ih]
      · simp only [hfa, if_neg, Bool.false_eq_true, not_false_iff]
        rw [List.find?_cons_of_neg _ (by simpa using ha), ih]

theorem getField_setField_same (d : DocumentData) (k : String) (v : Value) :
    getField (setField d k v) k = some v := by
  unfold getField setField
  rw [List.find?_append]
  have h1 : List.find? (fun kv => kv.1 == k)
      (List.filter (fun kv => !(kv.1 == k)) d) = none := by
    rw [List.find?_eq_none]
    intro x hx
    rw [List.mem_filter] at hx
    simpa using hx.2
  rw [h1]
  simp [List.find?_cons]

theorem getField_setField_ne (d : DocumentData) (k k2 : String) (v : Value)
    (h : k2 ≠ k) :
    getField (setField d k v) k2 = getField d k2 := by
  unfold getField setField
  rw [List.find?_append]
  rw [find?_filter_keys d k2 (fun s => !(s == k)) (by simpa using h)]
  have h2 : List.find? (fun kv => kv.1 == k2) [(k, v)] = none := by
    rw [List.find?_eq_none]
    intro x hx
    simp at hx
    subst hx
    simp [Ne.symm h]
  rw [h2]
  cases List.find? (fun kv => kv.1 == k2) d <;> rfl

theorem getField_payloadCreate_id (data : DocumentData) (docId : String) :
    getField (payloadCreate data docId) "id" = some (.str docId) := by
  unfold payloadCreate
  rw [getField_setField_ne _ _ _ _ (by decide), getField_setField_same]

theorem getField_payloadUpdate_id (data : DocumentData) (docId : String) :
    getField (payloadUpdate data docId) "id" = some (.str docId) := by
  unfold payloadUpdate
  rw [getField_setField_ne _ _ _ _ (by decide), getField_setField_same]

/-! ### Helper lemmas on the batch accumulator -/

theorem batches_updateCount_flatten (s : BatchState) :
    s.updateCount.batches.flatten = s.batches.flatten := by
  unfold BatchState.updateCount
  split <;> simp

theorem allWrites_stepWrite (s : BatchState) (w : WriteOp)
    (h : s.batches ≠ []) :
    (s.stepWrite w).allWrites = s.allWrites ++ [w] := by
  unfold BatchState.stepWrite BatchState.allWrites
  rw [batches_updateCount_flatten]
  unfold BatchState.pushCur
  simp only []
  conv_rhs => rw [← List.dropLast_append_getLast h]
  have hlast : s.batches.getLastD [] = s.batches.getLast h := by
    rw [List.getLastD_eq_getLast?, List.getLast?_eq_getLast _ h]
    rfl
  rw [hlast]
  simp

theorem batches_ne_nil_updateCount (s : BatchState) (h : s.batches ≠ []) :
    s.updateCount.batches ≠ [] := by
  unfold BatchState.updateCount
  split <;> simp_all

theorem batches_ne_nil_pushCur (s : BatchState) (w : WriteOp) :
    (s.pushCur w).batches ≠ [] := by
  unfold BatchState.pushCur
  simp

theorem batches_ne_nil_stepWrite (s : BatchState) (w : WriteOp) :
    (s.stepWrite w).batches ≠ [] := by
  unfold BatchState.stepWrite
  exact batches_ne_nil_updateCount _ (batches_ne_nil_pushCur s w)

/-- Every user-level batch call is a `stepWrite` with the write it
records. -/
theorem apply_eq_stepWrite (s : BatchState) (op : BatchOp) :
    ∃ w : WriteOp, s.apply op = s.stepWrite w := by
  cases op with
  | add x data freshId =>
    exact ⟨_, rfl⟩
  | set x data => exact ⟨_, rfl⟩
  | merge x data => exact ⟨_, rfl⟩
  | update x data => exact ⟨_, rfl⟩
  | delete x => exact ⟨_, rfl⟩

theorem totalCount_stepWrite (s : BatchState) (w : WriteOp) :
    (s.stepWrite w).totalCount = s.totalCount + 1 := by
  unfold BatchState.stepWrite BatchState.updateCount BatchState.pushCur
  split <;> rfl

theorem countPerBatch_stepWrite (s : BatchState) (w : WriteOp) :
    (s.stepWrite w).countPerBatch = s.countPerBatch := by
  unfold BatchState.stepWrite BatchState.updateCount BatchState.pushCur
  split <;> rfl

theorem totalCount_applyOps (s : BatchState) (ops : List BatchOp) :
    (s.applyOps ops).totalCount = s.totalCount + ops.length := by
  induction ops generalizing s with
  | nil => rfl
  | cons op ops ih =>
    unfold BatchState.applyOps at ih ⊢
    rw [List.foldl_cons, ih]
    obtain ⟨w, hw⟩ := apply_eq_stepWrite s op
    rw [hw, totalCount_stepWrite]
    simp [Nat.add_assoc, Nat.add_comm 1]

theorem countPerBatch_applyOps (s : BatchState) (ops : List BatchOp) :
    (s.applyOps ops).countPerBatch = s.countPerBatch := by
  induction ops generalizing s with
  | nil => rfl
  | cons op ops ih =>
    unfold BatchState.applyOps at ih ⊢
    rw [List.foldl_cons, ih]
    obtain ⟨w, hw⟩ := apply_eq_stepWrite s op
    rw [hw, countPerBatch_stepWrite]

theorem newWrites_stepWrite (s : BatchState) (w : WriteOp)
    (h : s.batches ≠ []) :
    s.newWrites (s.stepWrite w) = [w] := by
  unfold BatchState.newWrites
  rw [allWrites_stepWrite s w h]
  exact List.drop_left _ _

theorem succ_div_mod_of_eq (c n : Nat) (h : n % c + 1 = c) :
    (n + 1) % c = 0 ∧ (n + 1) / c = n / c + 1 := by
  have hc : 0 < c := by omega
  have hdm := Nat.div_add_mod n c
  have hq : n + 1 = c * (n / c + 1) := by rw [Nat.mul_succ]; omega
  constructor
  · rw [hq, Nat.mul_mod_right]
  · rw [hq, Nat.mul_div_cancel_left _ hc]

theorem succ_div_mod_of_lt (c n : Nat) (h : n % c + 1 < c) :
    (n + 1) % c = n % c + 1 ∧ (n + 1) / c = n / c := by
  have hc : 0 < c := by omega
  have hdm := Nat.div_add_mod n c
  have hq : n + 1 = c * (n / c) + (n % c + 1) := by omega
  constructor
  · rw [hq, Nat.mul_add_mod, Nat.mod_eq_of_lt h]
  · rw [hq, Nat.mul_add_div hc, Nat.div_eq_of_lt h, Nat.add_zero]

theorem inv_mkState (c : Nat) (hc : 1 ≤ c) : BatchInv c (FireBatch.mkState c) := by
  refine ⟨rfl, hc, ?_, ?_, ?_, rfl⟩
  · simp [FireBatch.mkState]
  · simp [FireBatch.mkState, Nat.div_eq_of_lt hc]
  · simp [FireBatch.mkState]

theorem inv_stepWrite (c : Nat) (s : BatchState) (w : WriteOp)
    (h : BatchInv c s) : BatchInv c (s.stepWrite w) := by
  obtain ⟨hcpb, hlt, hmod, hlen, hdrop, hlast⟩ := h
  have hne : s.batches ≠ [] := by
    intro hnil
    rw [hnil] at hlen
    simp at hlen
  have hlp : 0 < s.batches.length := List.length_pos.mpr hne
  unfold BatchState.stepWrite BatchState.pushCur BatchState.updateCount
  dsimp only
  by_cases hbr : s.countPerBatch ≤ s.curCount + 1
  · -- the write fills the current batch: a fresh batch is pushed
    rw [if_pos hbr]
    have hfill : s.curCount + 1 = c := by omega
    have harith := succ_div_mod_of_eq c s.totalCount (by omega)
    refine ⟨hcpb, ?_, ?_, ?_, ?_, ?_⟩
    · dsimp only
      omega
    · dsimp only
      exact harith.1.symm
    · dsimp only
      simp only [List.length_append, List.length_dropLast, List.length_cons,
        List.length_nil, harith.2]
      omega
    · dsimp only
      intro b hb
      rw [List.dropLast_concat] at hb
      rcases List.mem_append.mp hb with hb1 | hb2
      · exact hdrop b hb1
      · rw [List.mem_singleton.mp hb2, List.length_append]
        simp only [List.length_cons, List.length_nil]
        omega
    · dsimp only
      rw [List.getLastD_concat]
      rfl
  · -- the current batch is still under the limit
    rw [if_neg hbr]
    have harith := succ_div_mod_of_lt c s.totalCount (by omega)
    refine ⟨hcpb, ?_, ?_, ?_, ?_, ?_⟩
    · dsimp only
      omega
    · dsimp only
      omega
    · dsimp only
      simp only [List.length_append, List.length_dropLast, List.length_cons,
        List.length_nil, harith.2]
      omega
    · dsimp only
      intro b hb
      rw [List.dropLast_concat] at hb
      exact hdrop b hb
    · dsimp only
      rw [List.getLastD_concat, List.length_append]
      simp only [List.length_cons, List.length_nil]
      omega

theorem inv_apply (c : Nat) (s : BatchState) (op : BatchOp)
    (h : BatchInv c s) : BatchInv c (s.apply op) := by
  obtain ⟨w, hw⟩ := apply_eq_stepWrite s op
  rw [hw]
  exact inv_stepWrite c s w h

theorem inv_applyOps (c : Nat) (s : BatchState) (ops : List BatchOp)
    (h : BatchInv c s) : BatchInv c (s.applyOps ops) := by
  induction ops generalizing s with
  | nil => exact h
  | cons op ops ih =>
    unfold BatchState.applyOps at ih ⊢
    rw [List.foldl_cons]
    exact ih _ (inv_apply c s op h)

/-! ### Helper lemmas on the commit loop -/

theorem commitLoop_ok_of_all (ok : Nat → Bool) (base : Nat)
    (l : List (List WriteOp)) (h : ∀ j, j < l.length → ok (base + j) = true) :
    commitLoop ok base l = .ok l.flatten := by
  induction l generalizing base with
  | nil => rfl
  | cons b rest ih =>
    have hb : ok base = true := by simpa using h 0 (by simp)
    have hrest : ∀ j, j < rest.length → ok (base + 1 + j) = true := by
      intro j hj
      have := h (j + 1) (by simpa using Nat.succ_lt_succ hj)
      simpa [Nat.add_assoc, Nat.add_comm 1 j] using this
    unfold commitLoop
    rw [if_pos hb, ih (base + 1) hrest]
    simp

theorem commitLoop_error_at (ok : Nat → Bool) (base : Nat)
    (l : List (List WriteOp)) (i : Nat) (hi : i < l.length)
    (hfail : ok (base + i) = false)
    (hpre : ∀ j, j < i → ok (base + j) = true) :
    commitLoop ok base l = .error (base + i, (l.take i).flatten) := by
  induction l generalizing base i with
  | nil => simp at hi
  | cons b rest ih =>
    cases i with
    | zero =>
      unfold commitLoop
      rw [if_neg (by simpa using hfail)]
      simp
    | succ i =>
      have hb : ok base = true := by simpa using hpre 0 (Nat.succ_pos i)
      have hfail1 : ok (base + 1 + i) = false := by
        rw [Nat.add_assoc, Nat.add_comm 1 i]
        exact hfail
      have hpre1 : ∀ j, j < i → ok (base + 1 + j) = true := by
        intro j hj
        have := hpre (j + 1) (by omega)
        simpa [Nat.add_assoc, Nat.add_comm 1 j] using this
      have hrec := ih (base + 1) i (by simpa using Nat.lt_of_succ_lt_succ hi)
        hfail1 hpre1
      unfold commitLoop
      rw [if_pos hb, hrec]
      have hidx : base + 1 + i = base + (i + 1) := by omega
      simp [hidx]

/-! ### Helper lemmas on `FireUtil.getFireData` -/

theorem getField_mapVals (d : DocumentData) (k : String) (f : Value → Value) :
    getField (d.map (fun kv => (kv.1, f kv.2))) k = (getField d k).map f := by
  induction d with
  | nil => rfl
  | cons a d ih =>
    unfold getField at ih ⊢
    rw [List.map_cons]
    by_cases ha : a.1 == k
    · rw [List.find?_cons_of_pos _ (by simpa using ha),
        List.find?_cons_of_pos _ (by simpa using ha)]
      rfl
    · rw [List.find?_cons_of_neg _ (by simpa using ha),
        List.find?_cons_of_neg _ (by simpa using ha)]
      exact ih

theorem getField_cons_eq (a : String × Value) (rest : DocumentData)
    (k : String) (h : a.1 = k) : getField (a :: rest) k = some a.2 := by
  unfold getField
  rw [List.find?_cons_of_pos _ (by simpa using h)]
  rfl

theorem getField_cons_ne (a : String × Value) (rest : DocumentData)
    (k : String) (h : a.1 ≠ k) : getField (a :: rest) k = getField rest k := by
  unfold getField
  rw [List.find?_cons_of_neg _ (by simpa using h)]

theorem getField_append_of_none (l1 l2 : DocumentData) (k : String)
    (h : getField l1 k = none) :
    getField (l1 ++ l2) k = getField l2 k := by
  unfold getField at *
  rw [List.find?_append]
  cases hf : List.find? (fun kv => kv.1 == k) l1 with
  | none => simp
  | some v => rw [hf] at h; simp at h

theorem getField_optEntry_ne (d : DocumentData) (k k2 : String)
    (h : k ≠ k2) : getField (FireUtil.optEntry d k) k2 = none := by
  unfold FireUtil.optEntry
  cases getField d k with
  | none => rfl
  | some v =>
    rw [getField_cons_ne (k, v) [] k2 h]
    rfl

theorem getField_getFireData_id (d : DocumentData) :
    getField (FireUtil.getFireData d) "id" =
      some (((getField d "id").map tsToDate).getD (.str "")) := by
  unfold FireUtil.getFireData
  rw [getField_cons_eq _ _ _ rfl]
  unfold FireUtil.convertedData
  rw [getField_mapVals]

theorem getField_getFireData_createdAt (d : DocumentData) :
    getField (FireUtil.getFireData d) "createdAt" =
      (getField d "createdAt").map tsToDate := by
  unfold FireUtil.getFireData
  rw [getField_cons_ne _ _ _ (show ("id" : String) ≠ "createdAt" by decide)]
  have hconv : getField (FireUtil.convertedData d) "createdAt"
      = (getField d "createdAt").map tsToDate := by
    unfold FireUtil.convertedData
    rw [getField_mapVals]
  cases hc : getField (FireUtil.convertedData d) "createdAt" with
  | some v =>
    have he : FireUtil.optEntry (FireUtil.convertedData d) "createdAt"
        = [("createdAt", v)] := by
      unfold FireUtil.optEntry
      rw [hc]
    rw [he, List.append_assoc, List.singleton_append,
      getField_cons_eq _ _ _ rfl, ← hconv, hc]
  | none =>
    have he : FireUtil.optEntry (FireUtil.convertedData d) "createdAt"
        = [] := by
      unfold FireUtil.optEntry
      rw [hc]
    rw [he, List.nil_append]
    rw [getField_append_of_none _ _ _
      (getField_optEntry_ne _ "updatedAt" "createdAt" (by decide))]
    have h2 : getField ((FireUtil.convertedData d).filter
        (fun kv => !(kv.1 == "id" || kv.1 == "createdAt" ||
          kv.1 == "updatedAt"))) "createdAt" = none := by
      unfold getField
      rw [Option.map_eq_none', List.find?_eq_none]
      intro x hx
      rw [List.mem_filter] at hx
      intro hxk
      have hk : x.1 = "createdAt" := by simpa using hxk
      have hx2 := hx.2
      rw [hk] at hx2
      simp at hx2
    rw [h2, ← hconv, hc]

theorem getField_getFireData_updatedAt (d : DocumentData) :
    getField (FireUtil.getFireData d) "updatedAt" =
      (getField d "updatedAt").map tsToDate := by
  unfold FireUtil.getFireData
  rw [getField_cons_ne _ _ _ (show ("id" : String) ≠ "updatedAt" by decide)]
  have hconv : getField (FireUtil.convertedData d) "updatedAt"
      = (getField d "updatedAt").map tsToDate := by
    unfold FireUtil.convertedData
    rw [getField_mapVals]
  rw [List.append_assoc]
  rw [getField_append_of_none _ _ _
    (getField_optEntry_ne _ "createdAt" "updatedAt" (by decide))]
  cases hu : getField (FireUtil.convertedData d) "updatedAt" with
  | some v =>
    have he : FireUtil.optEntry (FireUtil.convertedData d) "updatedAt"
        = [("updatedAt", v)] := by
      unfold FireUtil.optEntry
      rw [hu]
    rw [he, List.singleton_append, getField_cons_eq _ _ _ rfl, ← hconv, hu]
  | none =>
    have he : FireUtil.optEntry (FireUtil.convertedData d) "updatedAt"
        = [] := by
      unfold FireUtil.optEntry
      rw [hu]
    rw [he, List.nil_append]
    have h2 : getField ((FireUtil.convertedData d).filter
        (fun kv => !(kv.1 == "id" || kv.1 == "createdAt" ||
          kv.1 == "updatedAt"))) "updatedAt" = none := by
      unfold getField
      rw [Option.map_eq_none', List.find?_eq_none]
      intro x hx
      rw [List.mem_filter] at hx
      intro hxk
      have hk : x.1 = "updatedAt" := by simpa using hxk
      have hx2 := hx.2
      rw [hk] at hx2
      simp at hx2
    rw [h2, ← hconv, hu]

theorem find?_filter_others (d : DocumentData) (k : String)
    (h1 : (k == "id") = false) (h2 : (k == "createdAt") = false)
    (h3 : (k == "updatedAt") = false) :
    List.find? (fun kv => kv.1 == k)
      (List.filter (fun kv => !(kv.1 == "id" || kv.1 == "createdAt" ||
        kv.1 == "updatedAt")) d)
      = List.find? (fun kv => kv.1 == k) d := by
  induction d with
  | nil => rfl
  | cons a d ih =>
    rw [List.filter_cons]
    by_cases ha : a.1 == k
    · have hak : a.1 = k := by simpa using ha
      have hcond : (!(a.1 == "id" || a.1 == "createdAt" ||
          a.1 == "updatedAt")) = true := by
        rw [hak, h1, h2, h3]
        rfl
      rw [if_pos hcond, List.find?_cons_of_pos _ (by simpa using ha),
        List.find?_cons_of_pos _ (by simpa using ha)]
    · by_cases hfa : (!(a.1 == "id" || a.1 == "createdAt" ||
          a.1 == "updatedAt")) = true
      · rw [if_pos hfa, List.find?_cons_of_neg _ (by simpa using ha),
          List.find?_cons_of_neg _ (by simpa using ha), ih]
      · rw [if_neg hfa, List.find?_cons_of_neg _ (by simpa using ha), ih]

theorem getField_getFireData_other (d : DocumentData) (k : String)
    (h1 : k ≠ "id") (h2 : k ≠ "createdAt") (h3 : k ≠ "updatedAt") :
    getField (FireUtil.getFireData d) k = (getField d k).map tsToDate := by
  unfold FireUtil.getFireData
  rw [getField_cons_ne _ _ _ (Ne.symm h1)]
  rw [List.append_assoc]
  rw [getField_append_of_none _ _ _
    (getField_optEntry_ne _ "createdAt" k (Ne.symm h2))]
  rw [getField_append_of_none _ _ _
    (getField_optEntry_ne _ "updatedAt" k (Ne.symm h3))]
  unfold getField
  rw [find?_filter_others (FireUtil.convertedData d) k (by simpa using h1)
    (by simpa using h2) (by simpa using h3)]
  unfold FireUtil.convertedData
  have hmv := getField_mapVals d k tsToDate
  unfold getField at hmv
  exact hmv

/-! ### Commit characterization and payload stamp lemmas -/

theorem commit_of_all_ok (ok : Nat → Bool) (s : BatchState)
    (h : ∀ j, j < s.batches.length → ok j = true) :
    FireBatch.commit ok s =
      ⟨.ok s.totalCount, s.batches.flatten,
        FireBatch.mkState s.countPerBatch⟩ := by
  unfold FireBatch.commit
  rw [commitLoop_ok_of_all ok 0 s.batches (fun j hj => by simpa using h j hj)]

theorem commit_first_failure (ok : Nat → Bool) (s : BatchState) (i : Nat)
    (hi : i < s.batches.length) (hfail : ok i = false)
    (hpre : ∀ j, j < i → ok j = true) :
    FireBatch.commit ok s = ⟨.error i, (s.batches.take i).flatten, s⟩ := by
  unfold FireBatch.commit
  rw [commitLoop_error_at ok 0 s.batches i hi (by simpa using hfail)
    (fun j hj => by simpa using hpre j hj)]
  simp

theorem stampsCreate_payloadCreate (data : DocumentData) (i : String) :
    stampsCreate (payloadCreate data i) data := by
  unfold stampsCreate payloadCreate
  constructor
  · exact getField_setField_same _ _ _
  · rw [getField_setField_ne _ _ _ _ (by decide),
      getField_setField_ne _ _ _ _ (by decide)]

theorem stampsUpdate_payloadUpdate (data : DocumentData) (i : String) :
    stampsUpdate (payloadUpdate data i) data := by
  unfold stampsUpdate payloadUpdate
  constructor
  · exact getField_setField_same _ _ _
  · rw [getField_setField_ne _ _ _ _ (by decide),
      getField_setField_ne _ _ _ _ (by decide)]

/-! ### Claim theorems -/

/-- C4: the reference-normalization helpers are normal forms: a non-empty
segment list denotes the same reference as its slash-join, both helpers
are the identity on already-built references, and applying a helper to
its own output changes nothing. -/
theorem c4_ref_normalization_normal_forms (p q : List String)
    (hp : p ≠ []) (hq : q ≠ []) (c : CollectionReference)
    (d : DocumentReference) (x : ColRefOrPath) (y : DocRefOrPathOrCol)
    (fid fid2 : String) :
    getColRef (.arr p) = getColRef (.str (joinPath p)) ∧
    getDocRef (.arr q) fid = getDocRef (.str (joinPath q)) fid ∧
    getColRef (.ref c) = c ∧
    getDocRef (.ref d) fid = d ∧
    getColRef (.ref (getColRef x)) = getColRef x ∧
    getDocRef (.ref (getDocRef y fid)) fid2 = getDocRef y fid :=
  ⟨rfl, rfl, rfl, rfl, rfl, rfl⟩

/-- Witness for C4 at concrete segment lists and references. -/
theorem c4_ref_normalization_normal_forms_witness :
    getColRef (.arr ["stores", "demo", "orders"])
      = getColRef (.str (joinPath ["stores", "demo", "orders"])) :=
  (c4_ref_normalization_normal_forms ["stores", "demo", "orders"]
    ["stores", "demo", "orders", "o1"] (by decide) (by decide)
    ⟨["stores", "demo", "orders"]⟩ ⟨["stores", "demo", "orders", "o1"]⟩
    (.str "stores/demo/orders") (.str "stores/demo/orders/o1")
    "f1" "f2").1

/-- C6: every document CRUD operation of `Fire` performs exactly one
backend call, the corresponding client-library operation on the
normalized reference with the enriched payload. -/
theorem c6_single_backend_call (f : Fire) (x : ColRefOrPath)
    (y : DocRefOrPath) (conv : DocumentData → DocumentData)
    (snap : Option DocumentData) (data : DocumentData) (fid : String) :
    (Fire.getDoc f y conv snap).1 = SpecSingleCall.getDocTrace y ∧
    (Fire.getDoc f y conv snap).1.length = 1 ∧
    (Fire.addDoc f x data fid).1 = SpecSingleCall.addDocTrace x data fid ∧
    (Fire.addDoc f x data fid).1.length = 1 ∧
    (Fire.setDoc f y data).1 = SpecSingleCall.setDocTrace y data ∧
    (Fire.setDoc f y data).1.length = 1 ∧
    (Fire.mergeDoc f y data).1 = SpecSingleCall.mergeDocTrace y data ∧
    (Fire.mergeDoc f y data).1.length = 1 ∧
    (Fire.updateDoc f y data).1 = SpecSingleCall.updateDocTrace y data ∧
    (Fire.updateDoc f y data).1.length = 1 ∧
    Fire.deleteDoc f y = SpecSingleCall.deleteDocTrace y ∧
    (Fire.deleteDoc f y).length = 1 :=
  ⟨rfl, rfl, rfl, rfl, rfl, rfl, rfl, rfl, rfl, rfl, rfl, rfl⟩

/-- C7: the `Fire` class is stateless: it has no per-instance fields, so
any two instances agree on every getter and method over the same global
auth and firestore state. -/
theorem c7_fire_instances_interchangeable (f1 f2 : Fire) (g : GlobalState)
    (e pw : String) (u : User) (x : ColRefOrPath) (y : DocRefOrPathOrCol)
    (yn : DocRefOrPath) (fid : String) (conv : DocumentData → DocumentData)
    (snap : Option DocumentData) (data : DocumentData) :
    f1 = f2 ∧
    Fire.auth f1 g = Fire.auth f2 g ∧
    Fire.user f1 g = Fire.user f2 g ∧
    Fire.uid f1 g = Fire.uid f2 g ∧
    Fire.db f1 g = Fire.db f2 g ∧
    Fire.signIn f1 g e pw u = Fire.signIn f2 g e pw u ∧
    Fire.signOut f1 g = Fire.signOut f2 g ∧
    Fire.colRef f1 x = Fire.colRef f2 x ∧
    Fire.docRef f1 y fid = Fire.docRef f2 y fid ∧
    Fire.getDoc f1 yn conv snap = Fire.getDoc f2 yn conv snap ∧
    Fire.addDoc f1 x data fid = Fire.addDoc f2 x data fid ∧
    Fire.setDoc f1 yn data = Fire.setDoc f2 yn data ∧
    Fire.mergeDoc f1 yn data = Fire.mergeDoc f2 yn data ∧
    Fire.updateDoc f1 yn data = Fire.updateDoc f2 yn data ∧
    Fire.deleteDoc f1 yn = Fire.deleteDoc f2 yn := by
  cases f1
  cases f2
  exact ⟨rfl, rfl, rfl, rfl, rfl, rfl, rfl, rfl, rfl, rfl, rfl, rfl, rfl,
    rfl, rfl⟩

/-- C2: every data-storing write (the four `Fire` document writers and
the four `FireBatch` writers) writes a payload whose `id` field equals
the id of the document reference written to, whatever `id` the caller
supplied. -/
theorem c2_written_id_mirrors_reference (f : Fire) (x : ColRefOrPath)
    (y : DocRefOrPath) (data : DocumentData) (fid : String)
    (s : BatchState) (hs : s.batches ≠ []) :
    (∀ call ∈ (Fire.addDoc f x data fid).1, call.idMirrors) ∧
    (∀ call ∈ (Fire.setDoc f y data).1, call.idMirrors) ∧
    (∀ call ∈ (Fire.mergeDoc f y data).1, call.idMirrors) ∧
    (∀ call ∈ (Fire.updateDoc f y data).1, call.idMirrors) ∧
    (∀ w ∈ s.newWrites (FireBatch.add s x data fid).2, w.idMirrors) ∧
    (∀ w ∈ s.newWrites (FireBatch.set s y data), w.idMirrors) ∧
    (∀ w ∈ s.newWrites (FireBatch.merge s y data), w.idMirrors) ∧
    (∀ w ∈ s.newWrites (FireBatch.update s y data), w.idMirrors) := by
  refine ⟨?_, ?_, ?_, ?_, ?_, ?_, ?_, ?_⟩
  · intro call hc
    rw [List.mem_singleton.mp hc]
    exact getField_payloadCreate_id data _
  · intro call hc
    rw [List.mem_singleton.mp hc]
    exact getField_payloadCreate_id data _
  · intro call hc
    rw [List.mem_singleton.mp hc]
    exact getField_payloadUpdate_id data _
  · intro call hc
    rw [List.mem_singleton.mp hc]
    exact getField_payloadUpdate_id data _
  · intro w hw
    rw [show (FireBatch.add s x data fid).2
      = s.stepWrite (.setW (docFromCol (getColRef x) fid)
        (payloadCreate data (docFromCol (getColRef x) fid).id) false)
      from rfl, newWrites_stepWrite s _ hs] at hw
    rw [List.mem_singleton.mp hw]
    exact getField_payloadCreate_id data _
  · intro w hw
    rw [show FireBatch.set s y data
      = s.stepWrite (.setW (getDocRefN y)
        (payloadCreate data (getDocRefN y).id) false)
      from rfl, newWrites_stepWrite s _ hs] at hw
    rw [List.mem_singleton.mp hw]
    exact getField_payloadCreate_id data _
  · intro w hw
    rw [show FireBatch.merge s y data
      = s.stepWrite (.setW (getDocRefN y)
        (payloadUpdate data (getDocRefN y).id) true)
      from rfl, newWrites_stepWrite s _ hs] at hw
    rw [List.mem_singleton.mp hw]
    exact getField_payloadUpdate_id data _
  · intro w hw
    rw [show FireBatch.update s y data
      = s.stepWrite (.updateW (getDocRefN y)
        (payloadUpdate data (getDocRefN y).id))
      from rfl, newWrites_stepWrite s _ hs] at hw
    rw [List.mem_singleton.mp hw]
    exact getField_payloadUpdate_id data _

/-- Witness for C2: the batch `set` of a payload carrying a clashing
caller id still writes the reference id. -/
theorem c2_written_id_mirrors_reference_witness :
    WriteOp.idMirrors (.setW (getDocRefN (.str "orders/o1"))
      (payloadCreate [("id", Value.str "zzz")]
        (getDocRefN (.str "orders/o1")).id) false) :=
  (c2_written_id_mirrors_reference ⟨⟩ (.str "orders") (.str "orders/o1")
    [("id", Value.str "zzz")] "gen" (FireBatch.mkState 2)
    (by decide)).2.2.2.2.2.1
    (.setW (getDocRefN (.str "orders/o1"))
      (payloadCreate [("id", Value.str "zzz")]
        (getDocRefN (.str "orders/o1")).id) false)
    (List.mem_singleton.mpr rfl)

/-- C3: `Fire.addDoc` / `Fire.setDoc` / `FireBatch.add` / `FireBatch.set`
attach the server timestamp under `createdAt` and leave `updatedAt` as
supplied; `Fire.mergeDoc` / `Fire.updateDoc` / `FireBatch.merge` /
`FireBatch.update` attach it under `updatedAt` and leave `createdAt` as
supplied; no operation attaches both keys. -/
theorem c3_timestamp_keys (f : Fire) (x : ColRefOrPath) (y : DocRefOrPath)
    (data : DocumentData) (fid : String) (s : BatchState)
    (hs : s.batches ≠ []) :
    (∀ call ∈ (Fire.addDoc f x data fid).1,
      ∀ pay, call.payloadOf = some pay → stampsCreate pay data) ∧
    (∀ call ∈ (Fire.setDoc f y data).1,
      ∀ pay, call.payloadOf = some pay → stampsCreate pay data) ∧
    (∀ call ∈ (Fire.mergeDoc f y data).1,
      ∀ pay, call.payloadOf = some pay → stampsUpdate pay data) ∧
    (∀ call ∈ (Fire.updateDoc f y data).1,
      ∀ pay, call.payloadOf = some pay → stampsUpdate pay data) ∧
    (∀ w ∈ s.newWrites (FireBatch.add s x data fid).2,
      ∀ pay, w.payloadOf = some pay → stampsCreate pay data) ∧
    (∀ w ∈ s.newWrites (FireBatch.set s y data),
      ∀ pay, w.payloadOf = some pay → stampsCreate pay data) ∧
    (∀ w ∈ s.newWrites (FireBatch.merge s y data),
      ∀ pay, w.payloadOf = some pay → stampsUpdate pay data) ∧
    (∀ w ∈ s.newWrites (FireBatch.update s y data),
      ∀ pay, w.payloadOf = some pay → stampsUpdate pay data) := by
  refine ⟨?_, ?_, ?_, ?_, ?_, ?_, ?_, ?_⟩
  · intro call hc pay hp
    rw [List.mem_singleton.mp hc] at hp
    cases hp
    exact stampsCreate_payloadCreate data _
  · intro call hc pay hp
    rw [List.mem_singleton.mp hc] at hp
    cases hp
    exact stampsCreate_payloadCreate data _
  · intro call hc pay hp
    rw [List.mem_singleton.mp hc] at hp
    cases hp
    exact stampsUpdate_payloadUpdate data _
  · intro call hc pay hp
    rw [List.mem_singleton.mp hc] at hp
    cases hp
    exact stampsUpdate_payloadUpdate data _
  · intro w hw pay hp
    rw [show (FireBatch.add s x data fid).2
      = s.stepWrite (.setW (docFromCol (getColRef x) fid)
        (payloadCreate data (docFromCol (getColRef x) fid).id) false)
      from rfl, newWrites_stepWrite s _ hs] at hw
    rw [List.mem_singleton.mp hw] at hp
    cases hp
    exact stampsCreate_payloadCreate data _
  · intro w hw pay hp
    rw [show FireBatch.set s y data
      = s.stepWrite (.setW (getDocRefN y)
        (payloadCreate data (getDocRefN y).id) false)
      from rfl, newWrites_stepWrite s _ hs] at hw
    rw [List.mem_singleton.mp hw] at hp
    cases hp
    exact stampsCreate_payloadCreate data _
  · intro w hw pay hp
    rw [show FireBatch.merge s y data
      = s.stepWrite (.setW (getDocRefN y)
        (payloadUpdate data (getDocRefN y).id) true)
      from rfl, newWrites_stepWrite s _ hs] at hw
    rw [List.mem_singleton.mp hw] at hp
    cases hp
    exact stampsUpdate_payloadUpdate data _
  · intro w hw pay hp
    rw [show FireBatch.update s y data
      = s.stepWrite (.updateW (getDocRefN y)
        (payloadUpdate data (getDocRefN y).id))
      from rfl, newWrites_stepWrite s _ hs] at hw
    rw [List.mem_singleton.mp hw] at hp
    cases hp
    exact stampsUpdate_payloadUpdate data _

/-- Witness for C3: `Fire.addDoc` stamps `createdAt` and leaves the
caller's `updatedAt` untouched on a concrete payload. -/
theorem c3_timestamp_keys_witness :
    stampsCreate (payloadCreate [("updatedAt", Value.num 7)]
      (docFromCol (getColRef (.str "orders")) "gen").id)
      [("updatedAt", Value.num 7)] :=
  (c3_timestamp_keys ⟨⟩ (.str "orders") (.str "orders/o1")
    [("updatedAt", Value.num 7)] "gen" (FireBatch.mkState 2)
    (by decide)).1
    (.bSet (docFromCol (getColRef (.str "orders")) "gen")
      (payloadCreate [("updatedAt", Value.num 7)]
        (docFromCol (getColRef (.str "orders")) "gen").id) false)
    (List.mem_singleton.mpr rfl) _ rfl

/-- C1 counterexample: with per-batch limit `N = 0` (constructible, since
the constructor accepts any count), the very first write lands in the
current batch and only then is a new batch opened, so that batch holds
one write, exceeding the limit `0`. -/
theorem c1_per_batch_limit_counterexample :
    (FireBatch.mkState 0).countPerBatch = 0 ∧
    ¬ (∀ b ∈ (FireBatch.set (FireBatch.mkState 0) (.str "orders/o1")
        []).batches, b.length ≤ 0) := by
  constructor
  · rfl
  · decide

/-- C1 amended: for every per-batch limit `N ≥ 1` and every write
sequence, no underlying batch ever holds more than `N` writes, and a new
batch is opened only once the current batch has reached the threshold:
every retired (non-current) batch holds exactly `N` writes. -/
theorem c1_per_batch_limit_amended (c : Nat) (hc : 1 ≤ c)
    (ops : List BatchOp) :
    (∀ b ∈ (BatchState.applyOps (FireBatch.mkState c) ops).batches,
      b.length ≤ c) ∧
    (∀ b ∈ (BatchState.applyOps (FireBatch.mkState c) ops).batches.dropLast,
      b.length = c) := by
  obtain ⟨-, hlt, -, hlen, hdrop, hlast⟩ :=
    inv_applyOps c _ ops (inv_mkState c hc)
  refine ⟨?_, hdrop⟩
  intro b hb
  have hne : (BatchState.applyOps (FireBatch.mkState c) ops).batches ≠ [] := by
    intro hnil
    rw [hnil] at hlen
    simp at hlen
  have hdecomp := List.dropLast_append_getLast hne
  have hb2 : b ∈ ((BatchState.applyOps (FireBatch.mkState c) ops).batches.dropLast
      ++ [(BatchState.applyOps (FireBatch.mkState c) ops).batches.getLast hne]) := by
    rw [hdecomp]
    exact hb
  have hlastD : (BatchState.applyOps (FireBatch.mkState c) ops).batches.getLastD []
      = (BatchState.applyOps (FireBatch.mkState c) ops).batches.getLast hne := by
    rw [List.getLastD_eq_getLast?, List.getLast?_eq_getLast _ hne]
    rfl
  rcases List.mem_append.mp hb2 with h1 | h2
  · exact le_of_eq (hdrop b h1)
  · rw [List.mem_singleton.mp h2, ← hlastD]
    omega

/-- Witness for C1 amended: with limit 2 and two writes the filled first
batch holds exactly 2 writes, within the limit. -/
theorem c1_per_batch_limit_amended_witness :
    [WriteOp.setW (getDocRefN (.str "orders/o1"))
        (payloadCreate [] (getDocRefN (.str "orders/o1")).id) false,
      WriteOp.setW (getDocRefN (.str "orders/o1"))
        (payloadCreate [] (getDocRefN (.str "orders/o1")).id) false].length
      ≤ 2 :=
  (c1_per_batch_limit_amended 2 (by decide)
    [.set (.str "orders/o1") [], .set (.str "orders/o1") []]).1
    [WriteOp.setW (getDocRefN (.str "orders/o1"))
        (payloadCreate [] (getDocRefN (.str "orders/o1")).id) false,
      WriteOp.setW (getDocRefN (.str "orders/o1"))
        (payloadCreate [] (getDocRefN (.str "orders/o1")).id) false]
    (List.mem_cons_self _ _)

/-- C8: with per-batch limit `c ≥ 1`, after `n` writes `batchCount` is
`n / c + 1`; in particular after exactly `c` writes it is `2` with the
newest batch empty. -/
theorem c8_batchCount_floor_div (c : Nat) (hc : 1 ≤ c)
    (ops : List BatchOp) :
    (BatchState.applyOps (FireBatch.mkState c) ops).batchCount
      = ops.length / c + 1 ∧
    (ops.length = c →
      (BatchState.applyOps (FireBatch.mkState c) ops).batchCount = 2 ∧
      (BatchState.applyOps (FireBatch.mkState c) ops).batches.getLastD []
        = []) := by
  obtain ⟨-, hlt, hmod, hlen, -, hlast⟩ :=
    inv_applyOps c _ ops (inv_mkState c hc)
  have htot : (BatchState.applyOps (FireBatch.mkState c) ops).totalCount
      = ops.length := by
    rw [totalCount_applyOps]
    simp [FireBatch.mkState]
  constructor
  · unfold BatchState.batchCount
    rw [hlen, htot]
  · intro hn
    constructor
    · unfold BatchState.batchCount
      rw [hlen, htot, hn, Nat.div_self (by omega)]
    · refine List.eq_nil_of_length_eq_zero ?_
      rw [hlast, hmod, htot, hn, Nat.mod_self]

/-- Witness for C8 at limit 2 with exactly 2 writes: two batch objects,
the newest one empty. -/
theorem c8_batchCount_floor_div_witness :
    (BatchState.applyOps (FireBatch.mkState 2)
      [.set (.str "a/b") [], .set (.str "a/b") []]).batchCount = 2 ∧
    (BatchState.applyOps (FireBatch.mkState 2)
      [.set (.str "a/b") [], .set (.str "a/b") []]).batches.getLastD []
      = [] :=
  (c8_batchCount_floor_div 2 (by decide)
    [.set (.str "a/b") [], .set (.str "a/b") []]).2 (by decide)

/-- C9: when every underlying batch commit succeeds, `commit` returns the
number of writes accumulated since construction, resets the accumulator
to a single fresh batch, and a commit immediately following (with no
intervening writes, all backend commits succeeding) returns 0. -/
theorem c9_commit_returns_total_and_resets (c : Nat) (ops : List BatchOp)
    (ok ok2 : Nat → Bool) (hok : ∀ i, ok i = true)
    (hok2 : ∀ i, ok2 i = true) :
    (FireBatch.commit ok
      (BatchState.applyOps (FireBatch.mkState c) ops)).result
      = .ok ops.length ∧
    ((FireBatch.commit ok
      (BatchState.applyOps (FireBatch.mkState c) ops)).state).batchCount
      = 1 ∧
    (FireBatch.commit ok2 (FireBatch.commit ok
      (BatchState.applyOps (FireBatch.mkState c) ops)).state).result
      = .ok 0 := by
  have htot : (BatchState.applyOps (FireBatch.mkState c) ops).totalCount
      = ops.length := by
    rw [totalCount_applyOps]
    simp [FireBatch.mkState]
  have h1 := commit_of_all_ok ok
    (BatchState.applyOps (FireBatch.mkState c) ops) (fun j _ => hok j)
  rw [h1]
  refine ⟨by rw [htot], rfl, ?_⟩
  have h2 := commit_of_all_ok ok2
    (FireBatch.mkState
      (BatchState.applyOps (FireBatch.mkState c) ops).countPerBatch)
    (fun j _ => hok2 j)
  dsimp only
  rw [h2]
  rfl

/-- Witness for C9 at limit 1 with one write and all backend commits
succeeding. -/
theorem c9_commit_returns_total_and_resets_witness :
    (FireBatch.commit (fun _ => true)
      (BatchState.applyOps (FireBatch.mkState 1)
        [.set (.str "a/b") []])).result = .ok 1 ∧
    ((FireBatch.commit (fun _ => true)
      (BatchState.applyOps (FireBatch.mkState 1)
        [.set (.str "a/b") []])).state).batchCount = 1 ∧
    (FireBatch.commit (fun _ => true) (FireBatch.commit (fun _ => true)
      (BatchState.applyOps (FireBatch.mkState 1)
        [.set (.str "a/b") []])).state).result = .ok 0 :=
  c9_commit_returns_total_and_resets 1 [.set (.str "a/b") []]
    (fun _ => true) (fun _ => true) (fun _ => rfl) (fun _ => rfl)

/-- C5: `FireBatch.commit` gives no transactional guarantee across the
underlying batch objects: batches commit in accumulation order; when the
first refused batch is `i`, the error propagates with exactly the writes
of batches before `i` committed and the accumulator left unreset; the
reset and the returned total happen only when every batch commit
succeeds. -/
theorem c5_commit_not_transactional (s : BatchState) (ok : Nat → Bool) :
    (∀ i, i < s.batches.length → ok i = false →
      (∀ j, j < i → ok j = true) →
      FireBatch.commit ok s
        = ⟨.error i, (s.batches.take i).flatten, s⟩) ∧
    ((∀ j, j < s.batches.length → ok j = true) →
      FireBatch.commit ok s
        = ⟨.ok s.totalCount, s.batches.flatten,
            FireBatch.mkState s.countPerBatch⟩) :=
  ⟨fun i hi hf hp => commit_first_failure ok s i hi hf hp,
    fun h => commit_of_all_ok ok s h⟩

/-- Witness for C5: with limit 1 and two writes (three underlying
batches) and a backend refusing batch 1, commit propagates error 1, the
first batch stays committed, and the accumulator is left unreset. -/
theorem c5_commit_not_transactional_witness :
    FireBatch.commit (fun i => decide (i = 0))
      (BatchState.applyOps (FireBatch.mkState 1)
        [.set (.str "a/b") [], .set (.str "a/b") []])
      = ⟨.error 1,
          ((BatchState.applyOps (FireBatch.mkState 1)
            [.set (.str "a/b") [], .set (.str "a/b") []]).batches.take
              1).flatten,
          BatchState.applyOps (FireBatch.mkState 1)
            [.set (.str "a/b") [], .set (.str "a/b") []]⟩ :=
  (c5_commit_not_transactional
    (BatchState.applyOps (FireBatch.mkState 1)
      [.set (.str "a/b") [], .set (.str "a/b") []])
    (fun i => decide (i = 0))).1 1 (by decide) (by decide) (by decide)

/-- C10 counterexample: a stored document whose `id` field holds the
number 42 makes `fromFirestore` supply a non-string `id` to the user's
mapping function, refuting "always supplies an id field that is a
string". -/
theorem c10_converter_counterexample :
    ¬ (∀ d : DocumentData, ∀ v : Value,
        getField (FireUtil.getFireData d) "id" = some v
          → v.isStr = true) := by
  intro h
  have h42 := h [("id", Value.num 42)] (Value.num 42) (by decide)
  simp [Value.isStr] at h42

/-- C10 amended: `fromFirestore` pipes the snapshot through
`getFireData`, which converts every top-level `Timestamp` value to a
`Date`, passes every other field through unchanged, and always supplies
an `id` field equal to the (converted) stored `id` when present and to
the empty string when absent — so the supplied id is a string whenever
the stored `id` is a string or missing, but mirrors any non-string
stored `id` as is. -/
theorem c10_converter_amended (d : DocumentData) (k : String)
    (h1 : k ≠ "id") (h2 : k ≠ "createdAt") (h3 : k ≠ "updatedAt")
    (fromF : DocumentData → DocumentData) :
    FireUtil.createDataConverter fromF d = fromF (FireUtil.getFireData d) ∧
    getField (FireUtil.getFireData d) k = (getField d k).map tsToDate ∧
    getField (FireUtil.getFireData d) "createdAt"
      = (getField d "createdAt").map tsToDate ∧
    getField (FireUtil.getFireData d) "updatedAt"
      = (getField d "updatedAt").map tsToDate ∧
    getField (FireUtil.getFireData d) "id"
      = some (((getField d "id").map tsToDate).getD (.str "")) ∧
    (getField d "id" = none →
      getField (FireUtil.getFireData d) "id" = some (.str "")) ∧
    (∀ i : String, getField d "id" = some (.str i) →
      getField (FireUtil.getFireData d) "id" = some (.str i)) := by
  refine ⟨rfl, getField_getFireData_other d k h1 h2 h3,
    getField_getFireData_createdAt d, getField_getFireData_updatedAt d,
    getField_getFireData_id d, ?_, ?_⟩
  · intro h
    rw [getField_getFireData_id d, h]
    rfl
  · intro i h
    rw [getField_getFireData_id d, h]
    rfl

/-- Witness for C10 amended: a concrete `Timestamp` field is converted
to a `Date` before the user mapping function sees it. -/
theorem c10_converter_amended_witness :
    getField (FireUtil.getFireData [("x", Value.ts 5)]) "x"
      = (getField [("x", Value.ts 5)] "x").map tsToDate :=
  (c10_converter_amended [("x", Value.ts 5)] "x" (by decide) (by decide)
    (by decide) (fun d => d)).2.1
